import Mathlib

/-!
Shallow embedding of the core of the chess-openings-trainer repository
(`src/core/srs.py`, `src/core/repertoire.py`, `src/core/trainer.py`).

Modelling conventions:
* calendar dates are integers counting days; `date.today()` becomes an
  explicit `today : ℤ` argument, and the ISO `YYYY-MM-DD` codec
  (`_format_date` / `_parse_date`) is modelled as the identity on day
  numbers (a stored date field is `Option (Option ℤ)`: `none` means the
  JSON field is absent or not a string, `some none` means a string that
  fails to parse, `some (some d)` a string parsing to day `d`);
* Python `float` arithmetic on the ease factor is modelled over `ℚ`
  (the literals 2.5, 1.3, 0.1 and 0.08 become exact rationals);
* Python `dict`s become association lists with insertion-order
  semantics: assignment overwrites in place, a new key is appended;
* Python `round` (round half to even) is `pyRound`, and the idiom
  `int(round(x)) or 1` is `pyOr (pyRound x) 1`;
* the chess-rules provider (the `chess` library) is external to the
  repository and is modelled as an abstract record of functions, as the
  spec describes it at its interface boundary.
-/

/-- Python dict lookup `d.get(k)` on an association list: the value at the
first occurrence of key `k`, if any. -/
def dGet {α : Type} (l : List (String × α)) (k : String) : Option α :=
  match l with
  | [] => none
  | (k', v) :: rest => if k' = k then some v else dGet rest k

/-- Python dict assignment `d[k] = v`: overwrite in place if the key is
present, otherwise append the new binding at the end. -/
def dSet {α : Type} (l : List (String × α)) (k : String) (v : α) : List (String × α) :=
  match l with
  | [] => [(k, v)]
  | (k', v') :: rest => if k' = k then (k, v) :: rest else (k', v') :: dSet rest k v

/-- The key set of a dict, in insertion order. -/
def dKeys {α : Type} (l : List (String × α)) : List String :=
  l.map Prod.fst

/-- Constant `DEFAULT_EASE = 2.5` from `srs.py`. -/
def DEFAULT_EASE : ℚ := 5 / 2

/-- Constant `MIN_EASE = 1.3` from `srs.py`. -/
def MIN_EASE : ℚ := 13 / 10

/-- Python built-in `round` on an exact rational: round half to even. -/
def pyRound (q : ℚ) : ℤ :=
  let f : ℤ := Int.floor q
  let r : ℚ := q - (f : ℚ)
  if r < 1 / 2 then f
  else if 1 / 2 < r then f + 1
  else if f % 2 = 0 then f else f + 1

/-- Python truthiness fallback `x or y` on integers: `y` when `x == 0`. -/
def pyOr (x y : ℤ) : ℤ :=
  if x = 0 then y else x

/-- Python `str.strip()`: drop leading and trailing whitespace (an
executable model of the trimming done by `_normalize_move`). -/
def pyStrip (s : String) : String :=
  String.mk (((s.data.dropWhile Char.isWhitespace).reverse.dropWhile Char.isWhitespace).reverse)

/-- The per-position review state of `srs.py`, class `Card`. -/
structure Card where
  fen : String
  ease : ℚ
  interval : ℤ
  repetitions : ℤ
  due : ℤ
  last_grade : Option ℤ
  last_reviewed : Option ℤ
deriving DecidableEq, Repr

/-- A fresh card as built by `Card(fen=fen, due=date.today())`: default
ease 2.5, interval 0, repetitions 0, never reviewed. -/
def newCard (fen : String) (today : ℤ) : Card :=
  { fen := fen, ease := DEFAULT_EASE, interval := 0, repetitions := 0,
    due := today, last_grade := none, last_reviewed := none }

/-- One entry of the persisted card-store document, as read back from
JSON. Absent (or wrongly typed) fields are `none`; date-valued fields
additionally record whether the stored string parses (see the module
comment). -/
structure CardDoc where
  ease : Option ℚ
  interval : Option ℤ
  repetitions : Option ℤ
  due : Option (Option ℤ)
  last_grade : Option ℤ
  last_reviewed : Option (Option ℤ)
deriving DecidableEq, Repr

/-- Method `Card.to_dict` from `srs.py`: serialize a card. `last_reviewed` is
formatted when set and stored as JSON `null` otherwise. -/
def Card.to_dict (c : Card) : CardDoc :=
  { ease := some c.ease,
    interval := some c.interval,
    repetitions := some c.repetitions,
    due := some (some c.due),
    last_grade := c.last_grade,
    last_reviewed := c.last_reviewed.map (fun d => some d) }

/-- Method `Card.from_dict` from `srs.py`: rebuild a card from a document entry,
falling back to `today` for an absent/unparseable `due`, to `None` for an
absent/unparseable `last_reviewed`, and to the dataclass defaults for the
numeric fields. -/
def Card.from_dict (today : ℤ) (fen : String) (d : CardDoc) : Card :=
  { fen := fen,
    ease := d.ease.getD DEFAULT_EASE,
    interval := d.interval.getD 0,
    repetitions := d.repetitions.getD 0,
    due := match d.due with
           | some (some dt) => dt
           | _ => today,
    last_grade := d.last_grade,
    last_reviewed := match d.last_reviewed with
                     | some (some dt) => some dt
                     | _ => none }

/-- The scheduler's in-memory card map `SRSManager._cards`. -/
abbrev SRS : Type := List (String × Card)

namespace SRSManager

/-- Method `SRSManager.get`: return the card for `fen`, creating a fresh card due
today if the position is not yet tracked. Yields the card together with
the (possibly extended) card map. -/
def get (s : SRS) (fen : String) (today : ℤ) : Card × SRS :=
  match dGet s fen with
  | some c => (c, s)
  | none => (newCard fen today, dSet s fen (newCard fen today))

/-- The card update performed by `SRSManager.schedule` on the card it
fetched: the SM-2 variant of `srs.py`, lines 100-119. -/
def scheduleCard (c : Card) (grade today : ℤ) : Card :=
  let c1 : Card := { c with last_grade := some grade, last_reviewed := some today }
  let c2 : Card :=
    if grade < 3 then
      { c1 with repetitions := 0, interval := 1 }
    else
      let ca : Card :=
        if c1.repetitions = 0 then { c1 with interval := 1 }
        else if c1.repetitions = 1 then { c1 with interval := 6 }
        else { c1 with interval := pyOr (pyRound ((c1.interval : ℚ) * c1.ease)) 1 }
      let cb : Card := { ca with repetitions := ca.repetitions + 1 }
      { cb with ease := max MIN_EASE (cb.ease + 1 / 10 - ((5 : ℚ) - (grade : ℚ)) * (2 / 25)) }
  { c2 with due := today + c2.interval }

/-- Method `SRSManager.schedule(fen, grade, today)`: fetch (or create) the card,
apply the SM-2 update, store it back; returns the updated card and map. -/
def schedule (s : SRS) (fen : String) (grade today : ℤ) : Card × SRS :=
  let cs := get s fen today
  let c' := scheduleCard cs.1 grade today
  (c', dSet cs.2 fen c')

/-- Ordering used by `due_cards`: Python's tuple key `(c.due, c.ease)`
compared lexicographically. -/
def cardOrd (a b : Card) : Prop :=
  a.due < b.due ∨ (a.due = b.due ∧ a.ease ≤ b.ease)

instance : DecidableRel cardOrd := fun a b => by
  unfold cardOrd; infer_instance

instance : IsTotal Card cardOrd := by
  constructor
  intro a b
  unfold cardOrd
  rcases lt_trichotomy a.due b.due with h | h | h
  · exact Or.inl (Or.inl h)
  · rcases le_total a.ease b.ease with he | he
    · exact Or.inl (Or.inr ⟨h, he⟩)
    · exact Or.inr (Or.inr ⟨h.symm, he⟩)
  · exact Or.inr (Or.inl h)

instance : IsTrans Card cardOrd := by
  constructor
  intro a b c hab hbc
  unfold cardOrd at *
  rcases hab with h1 | ⟨h1, e1⟩
  · rcases hbc with h2 | ⟨h2, _⟩
    · exact Or.inl (h1.trans h2)
    · exact Or.inl (h2 ▸ h1)
  · rcases hbc with h2 | ⟨h2, e2⟩
    · exact Or.inl (h1 ▸ h2)
    · exact Or.inr ⟨h1.trans h2, e1.trans e2⟩

/-- Method `SRSManager.due_cards(today)`: the cards with `due ≤ today`, sorted by
the key `(due, ease)` (Python `sorted` modelled by a stable sort). -/
def due_cards (s : SRS) (today : ℤ) : List Card :=
  List.insertionSort cardOrd ((s.map Prod.snd).filter (fun c => decide (c.due ≤ today)))

/-- Method `SRSManager.remove_cards(fens_to_keep)`: drop every card whose
position key is not in the keep set. -/
def remove_cards (s : SRS) (fens_to_keep : List String) : SRS :=
  s.filter (fun p => decide (p.1 ∈ fens_to_keep))

/-- Method `SRSManager.save`: the persisted card-store document, one serialized
entry per card. -/
def save (s : SRS) : List (String × CardDoc) :=
  s.map (fun p => (p.1, p.2.to_dict))

/-- Method `SRSManager.load`: rebuild the card map from a (well-typed) document,
entry by entry via `Card.from_dict`. -/
def load (today : ℤ) (doc : List (String × CardDoc)) : SRS :=
  doc.map (fun p => (p.1, Card.from_dict today p.1 p.2))

end SRSManager

/-- A repertoire tree, `RepertoireTree` from `repertoire.py`: a mapping
from position key to a mapping from SAN move to resulting position key. -/
abbrev RepertoireTree : Type := List (String × List (String × String))

/-- The repertoire manager's in-memory state: one tree per side. -/
structure RepertoireManager where
  white_tree : RepertoireTree
  black_tree : RepertoireTree
deriving DecidableEq, Repr

/-- The abstract chess-rules provider used by `RepertoireManager.add_line`.
Boards are identified with their FEN strings; `san` returns the canonical
algebraic form of a move on a board, or `none` when the library raises
(illegal or unparseable move); `push` applies a move to a board. -/
structure LineRules where
  san : String → String → Option String
  push : String → String → String

namespace RepertoireManager

/-- Tree branch selection appearing in every method of `repertoire.py`:
the white tree when `side == "white"`, the black tree otherwise. -/
def treeOf (rep : RepertoireManager) (side : String) : RepertoireTree :=
  if side = "white" then rep.white_tree else rep.black_tree

/-- Method `RepertoireManager.get_available_moves(fen, side)`: the stored
move mapping at a position, empty when the position is untracked. -/
def get_available_moves (rep : RepertoireManager) (fen side : String) : List (String × String) :=
  (dGet (treeOf rep side) fen).getD []

/-- One committed ply of `add_line`:
`tree.setdefault(fen_before, {})[san_move] = fen_after`. -/
def treeInsert (t : RepertoireTree) (fen_before san_move fen_after : String) : RepertoireTree :=
  match dGet t fen_before with
  | some inner => dSet t fen_before (dSet inner san_move fen_after)
  | none => dSet t fen_before [(san_move, fen_after)]

/-- Method `RepertoireManager.add_line(board, moves, side)`, acting on one
tree: walk the move list, committing one `(position_before, san, position_after)`
entry per ply. A `board.san` failure raises mid-loop: the returned flag is
`false` and the tree is left as mutated so far (plies before the failing
move are already committed). -/
def addLine (r : LineRules) : List String → String → RepertoireTree → RepertoireTree × Bool
  | [], _, t => (t, true)
  | mv :: rest, board, t =>
    match r.san board mv with
    | none => (t, false)
    | some san_move =>
      addLine r rest (r.push board mv) (treeInsert t board san_move (r.push board mv))

/-- The longest leading run of moves on which the rules provider succeeds,
board state threaded along; used to describe what `add_line` commits when
it aborts. -/
def goodInit (r : LineRules) : String → List String → List String
  | _, [] => []
  | board, mv :: rest =>
    match r.san board mv with
    | none => []
    | some _ => mv :: goodInit r (r.push board mv) rest

/-- Method `RepertoireManager.save` restricted to one tree: the persisted
repertoire document has the same nested string-map shape as the tree. -/
def saveTree (t : RepertoireTree) : List (String × List (String × String)) :=
  t

/-- Method `RepertoireManager.load` restricted to one (well-typed)
document: every key and inner key/value is a string, so the isinstance
filters of `repertoire.py` keep every entry. -/
def loadTree (doc : List (String × List (String × String))) : RepertoireTree :=
  doc.map (fun p => (p.1, p.2.map (fun q => (q.1, q.2))))

end RepertoireManager

/-- Result record `TrainingResult` from `trainer.py`. -/
structure TrainingResult where
  fen : String
  success : Bool
  expected_moves : List (String × String)
  provided_move : Option String
  next_fen : Option String
  message : String
deriving DecidableEq, Repr

/-- The abstract chess-rules provider used by `Trainer._normalize_move`:
`parseSan` models `board.parse_san` (algebraic notation, `none` when it
raises), `fromUci` models `chess.Move.from_uci` (`none` when it raises),
`legal` models membership in `board.legal_moves`, and `san` models
`board.san` on a move obtained from one of the two parsers. -/
structure ChessRules where
  parseSan : String → String → Option String
  fromUci : String → Option String
  legal : String → String → Bool
  san : String → String → String

namespace Trainer

/-- Ordering of `sorted(moves.items())` in `Trainer.available_moves`:
Python tuple comparison on `(move, next_fen)` pairs of strings. -/
def pairOrd (a b : String × String) : Prop :=
  a.1 < b.1 ∨ (a.1 = b.1 ∧ a.2 ≤ b.2)

instance : DecidableRel pairOrd := fun a b => by
  unfold pairOrd; infer_instance

/-- Method `Trainer.available_moves(fen, side)`: the repertoire lookup,
sorted lexically for deterministic presentation. -/
def available_moves (rep : RepertoireManager) (fen side : String) : List (String × String) :=
  List.insertionSort pairOrd (RepertoireManager.get_available_moves rep fen side)

/-- Method `Trainer._normalize_move(fen, move_text)`: strip, try algebraic
form first, then coordinate (UCI) checked for legality; the canonical
SAN of the interpreted move, or `none` on empty or uninterpretable input. -/
def normalize_move (rules : ChessRules) (fen move_text : String) : Option String :=
  let text := pyStrip move_text
  if text = "" then none
  else
    match rules.parseSan fen text with
    | some mv => some (rules.san fen mv)
    | none =>
      match rules.fromUci text.toLower with
      | none => none
      | some mv => if rules.legal fen mv then some (rules.san fen mv) else none

/-- Method `Trainer.grade_answer(fen, move_text, side, success_grade,
failure_grade)`: adjudicate a submitted move against the repertoire,
scheduling the card on hit or miss and leaving the scheduler untouched
when no moves are stored. `today` stands for `date.today()` inside the
nested `schedule` calls. The Python success test
`if normalized and normalized in available` is truthiness-faithful: an
empty normalized string falls to the failure branch. -/
def grade_answer (rules : ChessRules) (rep : RepertoireManager) (s : SRS)
    (fen move_text side : String) (today success_grade failure_grade : ℤ) :
    TrainingResult × SRS :=
  let available := available_moves rep fen side
  if available = [] then
    ({ fen := fen, success := false, expected_moves := [], provided_move := none,
       next_fen := none, message := "No moves stored for this position." }, s)
  else
    let normalized := normalize_move rules fen move_text
    match normalized with
    | some n =>
      if n = "" then
        ({ fen := fen, success := false, expected_moves := available, provided_move := some n,
           next_fen := none, message := "Incorrect. Review the expected move." },
         (SRSManager.schedule s fen failure_grade today).2)
      else
        match dGet available n with
        | some nf =>
          ({ fen := fen, success := true, expected_moves := available, provided_move := some n,
             next_fen := some nf, message := "Correct!" },
           (SRSManager.schedule s fen success_grade today).2)
        | none =>
          ({ fen := fen, success := false, expected_moves := available, provided_move := some n,
             next_fen := none, message := "Incorrect. Review the expected move." },
           (SRSManager.schedule s fen failure_grade today).2)
    | none =>
      ({ fen := fen, success := false, expected_moves := available, provided_move := none,
         next_fen := none, message := "Incorrect. Review the expected move." },
       (SRSManager.schedule s fen failure_grade today).2)

/-- Method `Trainer.sync_with_repertoire()`: touch every position of both
trees (creating missing cards), then drop every card whose position is in
neither tree. -/
def sync_with_repertoire (rep : RepertoireManager) (s : SRS) (today : ℤ) : SRS :=
  let white_fens := dKeys rep.white_tree
  let black_fens := dKeys rep.black_tree
  let all_fens := white_fens ++ black_fens
  let s1 := all_fens.foldl (fun acc fen => (SRSManager.get acc fen today).2) s
  SRSManager.remove_cards s1 all_fens

end Trainer

/-! ### Spec-side definitions

These follow the wording of the specification (for refinement-style
comparison with the code-derived definitions above) and the invariants it
states. -/

/-- The SM-2 card update exactly as the spec words it: on failure
`repetitions = 0, interval = 1` and ease unchanged; on success the
interval is `1`, `6`, or `max(1, round(interval * ease))` by repetition
count, then repetitions is incremented and
`ease = max(1.3, ease + 0.1 - (5 - grade) * 0.08)`; finally
`due = today + interval`, `last_grade = grade`, `last_reviewed = today`. -/
def scheduleCardSpec (c : Card) (grade today : ℤ) : Card :=
  if grade < 3 then
    { fen := c.fen, ease := c.ease, interval := 1, repetitions := 0,
      due := today + 1, last_grade := some grade, last_reviewed := some today }
  else
    let interval : ℤ :=
      if c.repetitions = 0 then 1
      else if c.repetitions = 1 then 6
      else max 1 (pyRound ((c.interval : ℚ) * c.ease))
    { fen := c.fen,
      ease := max MIN_EASE (c.ease + 1 / 10 - ((5 : ℚ) - (grade : ℚ)) * (2 / 25)),
      interval := interval,
      repetitions := c.repetitions + 1,
      due := today + interval,
      last_grade := some grade,
      last_reviewed := some today }

/-- Spec invariant on a card: `due == last_reviewed + interval days`
whenever `last_reviewed` is set. -/
def cardInv (c : Card) : Prop :=
  ∀ d : ℤ, c.last_reviewed = some d → c.due = d + c.interval

/-- Observable equivalence of cards used by the round-trip property: the
six persisted fields agree (the `fen` field is the map key, not part of
the persisted entry). -/
def cardObsEq (c c' : Card) : Prop :=
  c.ease = c'.ease ∧ c.interval = c'.interval ∧ c.repetitions = c'.repetitions ∧
  c.due = c'.due ∧ c.last_grade = c'.last_grade ∧ c.last_reviewed = c'.last_reviewed

/-- Nested lookup in a repertoire tree: the stored resulting position for
a `(position, move)` pair. -/
def dGet2 (t : RepertoireTree) (fen mv : String) : Option String :=
  (dGet t fen).bind (fun inner => dGet inner mv)

/-! ### Dictionary helper lemmas -/

theorem dKeys_nil {α : Type} : dKeys ([] : List (String × α)) = [] := rfl

theorem dKeys_cons {α : Type} (k : String) (v : α) (l : List (String × α)) :
    dKeys ((k, v) :: l) = k :: dKeys l := rfl

theorem dGet_dSet {α : Type} (l : List (String × α)) (k f : String) (v : α) :
    dGet (dSet l k v) f = if k = f then some v else dGet l f := by
  induction l with
  | nil => simp [dGet, dSet]
  | cons p rest ih =>
    obtain ⟨k', v'⟩ := p
    by_cases hk : k' = k
    · subst hk
      simp only [dSet, if_pos rfl]
      by_cases hf : k' = f <;> simp [dGet, hf]
    · simp only [dSet, if_neg hk]
      by_cases hf : k' = f
      · subst hf
        have hkf : ¬(k = k') := fun h => hk h.symm
        simp [dGet, hkf]
      · simp [dGet, hf, ih]

theorem dGet_isSome_iff {α : Type} {l : List (String × α)} {k : String} :
    (dGet l k).isSome = true ↔ k ∈ dKeys l := by
  induction l with
  | nil => simp [dGet, dKeys_nil]
  | cons p rest ih =>
    obtain ⟨k', v'⟩ := p
    by_cases hk : k' = k
    · subst hk; simp [dGet, dKeys_cons]
    · simp only [dGet, if_neg hk, dKeys_cons, List.mem_cons]
      rw [ih]
      constructor
      · exact Or.inr
      · rintro (h | h)
        · exact absurd h.symm hk
        · exact h

theorem dGet_some_mem {α : Type} {l : List (String × α)} {k : String} {v : α}
    (h : dGet l k = some v) : k ∈ dKeys l :=
  dGet_isSome_iff.mp (by simp [h])

theorem dGet_none_iff {α : Type} {l : List (String × α)} {k : String} :
    dGet l k = none ↔ k ∉ dKeys l := by
  rw [← dGet_isSome_iff]
  cases dGet l k <;> simp

theorem mem_dKeys_dSet {α : Type} (l : List (String × α)) (k a : String) (v : α) :
    a ∈ dKeys (dSet l k v) ↔ a ∈ dKeys l ∨ a = k := by
  induction l with
  | nil => simp [dSet, dKeys_cons, dKeys_nil]
  | cons p rest ih =>
    obtain ⟨k', v'⟩ := p
    by_cases hk : k' = k
    · subst hk
      simp only [dSet, eq_self_iff_true, if_true, dKeys_cons, List.mem_cons]
      tauto
    · simp only [dSet, if_neg hk, dKeys_cons, List.mem_cons, ih, or_assoc]

theorem dSet_forall {α : Type} {P : String × α → Prop} {l : List (String × α)}
    {k : String} {v : α} (hl : ∀ p ∈ l, P p) (hv : P (k, v)) :
    ∀ p ∈ dSet l k v, P p := by
  induction l with
  | nil =>
    intro p hp
    simp only [dSet, List.mem_singleton] at hp
    exact hp ▸ hv
  | cons q rest ih =>
    obtain ⟨k', v'⟩ := q
    by_cases hk : k' = k
    · subst hk
      simp only [dSet, if_pos rfl]
      intro p hp
      rcases List.mem_cons.mp hp with h | h
      · exact h ▸ hv
      · exact hl p (List.mem_cons_of_mem _ h)
    · simp only [dSet, if_neg hk]
      intro p hp
      rcases List.mem_cons.mp hp with h | h
      · exact hl p (h ▸ List.mem_cons_self _ _)
      · exact ih (fun q hq => hl q (List.mem_cons_of_mem _ hq)) p h

/-! ### SM-2 update: code vs spec -/

theorem pyRound_nonneg (q : ℚ) (hq : 0 ≤ q) : 0 ≤ pyRound q := by
  have hf : 0 ≤ Int.floor q := Int.floor_nonneg.mpr hq
  unfold pyRound
  dsimp only
  split
  · exact hf
  · split
    · omega
    · split
      · exact hf
      · omega

theorem pyOr_one_eq_max {x : ℤ} (hx : 0 ≤ x) : pyOr x 1 = max 1 x := by
  unfold pyOr
  split <;> omega

theorem scheduleCard_eq_spec (c : Card) (grade today : ℤ)
    (hi : 0 ≤ c.interval) (he : 0 ≤ c.ease) :
    SRSManager.scheduleCard c grade today = scheduleCardSpec c grade today := by
  have hx : 0 ≤ pyRound ((c.interval : ℚ) * c.ease) :=
    pyRound_nonneg _ (mul_nonneg (by exact_mod_cast hi) he)
  unfold SRSManager.scheduleCard scheduleCardSpec
  by_cases hg : grade < 3
  · simp [hg]
  · by_cases h0 : c.repetitions = 0
    · simp [hg, h0]
    · by_cases h1 : c.repetitions = 1
      · simp [hg, h0, h1]
      · simp [hg, h0, h1, pyOr_one_eq_max hx]

/-- Claim C1: for every card (with the data model's nonnegative interval
and ease) and every grade in 0-5, `schedule(position, grade, today)`
updates that position's card exactly per the spec's SM-2 variant
(`scheduleCardSpec`), both when the position is already tracked and when
a fresh card has to be created. -/
theorem C1_schedule_follows_sm2_spec (s : SRS) (fen : String) (grade today : ℤ)
    (hg0 : 0 ≤ grade) (hg5 : grade ≤ 5) :
    (∀ c, dGet s fen = some c → 0 ≤ c.interval → 0 ≤ c.ease →
      SRSManager.schedule s fen grade today =
        (scheduleCardSpec c grade today, dSet s fen (scheduleCardSpec c grade today)))
    ∧ (dGet s fen = none →
      SRSManager.schedule s fen grade today =
        (scheduleCardSpec (newCard fen today) grade today,
         dSet (dSet s fen (newCard fen today)) fen (scheduleCardSpec (newCard fen today) grade today))) := by
  constructor
  · intro c hc hi he
    unfold SRSManager.schedule SRSManager.get
    rw [hc]
    simp [scheduleCard_eq_spec c grade today hi he]
  · intro hc
    unfold SRSManager.schedule SRSManager.get
    rw [hc]
    have hi : 0 ≤ (newCard fen today).interval := by simp [newCard]
    have he : 0 ≤ (newCard fen today).ease := by simp [newCard, DEFAULT_EASE]; norm_num
    simp [scheduleCard_eq_spec (newCard fen today) grade today hi he]

/-- Witness for C1 at a concrete input: grade 4 on a previously untracked
position. -/
theorem C1_witness :
    (0 : ℤ) ≤ 4 ∧ (4 : ℤ) ≤ 5 ∧
    SRSManager.schedule [] "P" 4 0 =
      (scheduleCardSpec (newCard "P" 0) 4 0,
       dSet (dSet [] "P" (newCard "P" 0)) "P" (scheduleCardSpec (newCard "P" 0) 4 0)) :=
  ⟨by decide, by decide,
   (C1_schedule_follows_sm2_spec [] "P" 4 0 (by decide) (by decide)).2 rfl⟩

/-! ### Ease floor invariant -/

theorem scheduleCard_ease_ge (c : Card) (g t : ℤ) (h : MIN_EASE ≤ c.ease) :
    MIN_EASE ≤ (SRSManager.scheduleCard c g t).ease := by
  unfold SRSManager.scheduleCard
  by_cases hg : g < 3
  · simpa [hg] using h
  · by_cases h0 : c.repetitions = 0
    · simp [hg, h0]
    · by_cases h1 : c.repetitions = 1
      · simp [hg, h0, h1]
      · simp [hg, h0, h1]

theorem foldl_scheduleCard_ease_ge (gs : List (ℤ × ℤ)) (c : Card)
    (h : MIN_EASE ≤ c.ease) :
    MIN_EASE ≤ (gs.foldl (fun c p => SRSManager.scheduleCard c p.1 p.2) c).ease := by
  induction gs generalizing c with
  | nil => simpa
  | cons p rest ih =>
    simpa using ih (SRSManager.scheduleCard c p.1 p.2) (scheduleCard_ease_ge c p.1 p.2 h)

/-- Claim C5: starting from a freshly created card (default ease 2.5), any
sequence of `schedule` updates with grades in 0-5 (each paired with its
review day) never drives the ease below 1.3. -/
theorem C5_ease_never_below_min (fen : String) (d : ℤ) (gs : List (ℤ × ℤ))
    (hg : ∀ p ∈ gs, 0 ≤ p.1 ∧ p.1 ≤ 5) :
    MIN_EASE ≤ (gs.foldl (fun c p => SRSManager.scheduleCard c p.1 p.2) (newCard fen d)).ease := by
  apply foldl_scheduleCard_ease_ge
  simp [newCard, DEFAULT_EASE, MIN_EASE]
  norm_num

/-- Witness for C5 at a concrete input: three reviews, two of them
failures at the lowest grade. -/
theorem C5_witness :
    (∀ p ∈ [((0 : ℤ), (0 : ℤ)), (5, 1), (0, 7)], 0 ≤ p.1 ∧ p.1 ≤ 5) ∧
    MIN_EASE ≤ ([((0 : ℤ), (0 : ℤ)), (5, 1), (0, 7)].foldl
      (fun c p => SRSManager.scheduleCard c p.1 p.2) (newCard "P" 0)).ease :=
  ⟨by decide, C5_ease_never_below_min "P" 0 [(0, 0), (5, 1), (0, 7)] (by decide)⟩

/-- Claim C4: `due_cards(today)` is exactly the multiset of stored cards
whose due date is on or before `today` (a permutation of the filtered
value list), sorted ascending by the lexicographic key `(due, ease)`. -/
theorem C4_due_cards_exact_and_sorted (s : SRS) (today : ℤ) :
    (SRSManager.due_cards s today).Perm
      ((s.map Prod.snd).filter (fun c => decide (c.due ≤ today)))
    ∧ (∀ c : Card, c ∈ SRSManager.due_cards s today ↔ c ∈ s.map Prod.snd ∧ c.due ≤ today)
    ∧ List.Sorted SRSManager.cardOrd (SRSManager.due_cards s today) := by
  refine ⟨List.perm_insertionSort _ _, ?_, List.sorted_insertionSort _ _⟩
  intro c
  unfold SRSManager.due_cards
  rw [List.mem_insertionSort, List.mem_filter]
  simp

/-! ### Sync: card set vs repertoire positions -/

theorem mem_dKeys_get (s : SRS) (fen a : String) (t : ℤ) :
    a ∈ dKeys (SRSManager.get s fen t).2 ↔ a ∈ dKeys s ∨ a = fen := by
  cases h : dGet s fen with
  | some c =>
    simp only [SRSManager.get, h]
    constructor
    · exact Or.inl
    · rintro (ha | rfl)
      · exact ha
      · exact dGet_some_mem h
  | none =>
    simp only [SRSManager.get, h]
    simpa using mem_dKeys_dSet s fen a (newCard fen t)

theorem mem_dKeys_foldl_get (fens : List String) (s : SRS) (a : String) (t : ℤ) :
    a ∈ dKeys (fens.foldl (fun acc fen => (SRSManager.get acc fen t).2) s) ↔
      a ∈ dKeys s ∨ a ∈ fens := by
  induction fens generalizing s with
  | nil => simp
  | cons f rest ih =>
    simp only [List.foldl_cons, ih, mem_dKeys_get, List.mem_cons]
    tauto

theorem mem_dKeys_remove_cards (s : SRS) (keep : List String) (a : String) :
    a ∈ dKeys (SRSManager.remove_cards s keep) ↔ a ∈ dKeys s ∧ a ∈ keep := by
  unfold SRSManager.remove_cards
  induction s with
  | nil => simp [dKeys_nil]
  | cons p rest ih =>
    obtain ⟨k, v⟩ := p
    by_cases hk : k ∈ keep
    · rw [List.filter_cons_of_pos (by simpa using hk)]
      simp only [dKeys_cons, List.mem_cons, ih]
      constructor
      · rintro (rfl | ⟨h1, h2⟩)
        · exact ⟨Or.inl rfl, hk⟩
        · exact ⟨Or.inr h1, h2⟩
      · rintro ⟨rfl | h1, h2⟩
        · exact Or.inl rfl
        · exact Or.inr ⟨h1, h2⟩
    · rw [List.filter_cons_of_neg (by simpa using hk)]
      simp only [dKeys_cons, List.mem_cons, ih]
      constructor
      · rintro ⟨h1, h2⟩
        exact ⟨Or.inr h1, h2⟩
      · rintro ⟨rfl | h1, h2⟩
        · exact absurd h2 hk
        · exact ⟨h1, h2⟩

/-- Claim C2: after any call to `sync_with_repertoire`, the scheduler
tracks a position exactly when that position appears in the white tree or
in the black tree — for an arbitrary prior card map, hence for arbitrary
prior sequences of imports and removals. -/
theorem C2_sync_card_set_eq_union (rep : RepertoireManager) (s : SRS) (today : ℤ)
    (fen : String) :
    fen ∈ dKeys (Trainer.sync_with_repertoire rep s today) ↔
      fen ∈ dKeys rep.white_tree ∨ fen ∈ dKeys rep.black_tree := by
  unfold Trainer.sync_with_repertoire
  simp only [mem_dKeys_remove_cards, mem_dKeys_foldl_get, List.mem_append]
  tauto

/-! ### Frame properties of get and sync -/

theorem dGet_get_preserve (s : SRS) (x f : String) (t : ℤ) (c : Card)
    (h : dGet s f = some c) : dGet (SRSManager.get s x t).2 f = some c := by
  cases hx : dGet s x with
  | some c' => simp only [SRSManager.get, hx]; exact h
  | none =>
    simp only [SRSManager.get, hx, dGet_dSet]
    rw [if_neg]
    · exact h
    · rintro rfl
      rw [h] at hx
      cases hx

theorem dGet_foldl_get_preserve (fens : List String) (s : SRS) (f : String) (t : ℤ)
    (c : Card) (h : dGet s f = some c) :
    dGet (fens.foldl (fun acc fen => (SRSManager.get acc fen t).2) s) f = some c := by
  induction fens generalizing s with
  | nil => simpa using h
  | cons x rest ih =>
    simpa using ih (SRSManager.get s x t).2 (dGet_get_preserve s x f t c h)

theorem dGet_remove_cards_of_mem (s : SRS) (keep : List String) (f : String) (c : Card)
    (hf : f ∈ keep) (h : dGet s f = some c) :
    dGet (SRSManager.remove_cards s keep) f = some c := by
  unfold SRSManager.remove_cards
  induction s with
  | nil => simpa using h
  | cons p rest ih =>
    obtain ⟨k, v⟩ := p
    by_cases hk : k = f
    · subst hk
      rw [List.filter_cons_of_pos (by simpa using hf)]
      simp only [dGet, if_pos rfl] at h ⊢
      exact h
    · simp only [dGet, if_neg hk] at h
      by_cases hkeep : k ∈ keep
      · rw [List.filter_cons_of_pos (by simpa using hkeep)]
        simp only [dGet, if_neg hk]
        exact ih h
      · rw [List.filter_cons_of_neg (by simpa using hkeep)]
        exact ih h

/-- Claim C10: `get` on an already tracked position returns the stored
card and leaves the card map untouched; consequently a sync pass never
alters the card of a position that stays in the repertoire, so repeated
sync passes over an unchanged repertoire leave every card's fields
unchanged. -/
theorem C10_get_and_sync_frame (rep : RepertoireManager) (s : SRS) (today : ℤ) :
    (∀ fen c, dGet s fen = some c → SRSManager.get s fen today = (c, s))
    ∧ (∀ fen c, dGet s fen = some c →
        fen ∈ dKeys rep.white_tree ∨ fen ∈ dKeys rep.black_tree →
        dGet (Trainer.sync_with_repertoire rep s today) fen = some c) := by
  constructor
  · intro fen c h
    simp [SRSManager.get, h]
  · intro fen c h hmem
    unfold Trainer.sync_with_repertoire
    apply dGet_remove_cards_of_mem
    · exact List.mem_append.mpr hmem
    · exact dGet_foldl_get_preserve _ _ _ _ _ h

/-- Witness for C10: a one-card map whose position is in the white tree;
`get` is a no-op and sync keeps the card identical. -/
theorem C10_witness :
    dGet [("P", newCard "P" 0)] "P" = some (newCard "P" 0)
    ∧ SRSManager.get [("P", newCard "P" 0)] "P" 3 = (newCard "P" 0, [("P", newCard "P" 0)])
    ∧ dGet (Trainer.sync_with_repertoire
        { white_tree := [("P", [])], black_tree := [] } [("P", newCard "P" 0)] 3) "P"
      = some (newCard "P" 0) :=
  ⟨rfl,
   (C10_get_and_sync_frame { white_tree := [("P", [])], black_tree := [] }
      [("P", newCard "P" 0)] 3).1 "P" (newCard "P" 0) rfl,
   (C10_get_and_sync_frame { white_tree := [("P", [])], black_tree := [] }
      [("P", newCard "P" 0)] 3).2 "P" (newCard "P" 0) rfl (Or.inl (by simp [dKeys]))⟩

/-! ### The due/last_reviewed/interval invariant -/

theorem newCard_cardInv (fen : String) (t : ℤ) : cardInv (newCard fen t) := by
  intro d hd
  simp [newCard] at hd

theorem scheduleCard_last_reviewed (c : Card) (g t : ℤ) :
    (SRSManager.scheduleCard c g t).last_reviewed = some t := by
  unfold SRSManager.scheduleCard
  by_cases hg : g < 3
  · simp [hg]
  · by_cases h0 : c.repetitions = 0
    · simp [hg, h0]
    · by_cases h1 : c.repetitions = 1 <;> simp [hg, h0, h1]

theorem scheduleCard_due (c : Card) (g t : ℤ) :
    (SRSManager.scheduleCard c g t).due = t + (SRSManager.scheduleCard c g t).interval := by
  unfold SRSManager.scheduleCard
  by_cases hg : g < 3
  · simp [hg]
  · by_cases h0 : c.repetitions = 0
    · simp [hg, h0]
    · by_cases h1 : c.repetitions = 1 <;> simp [hg, h0, h1]

theorem scheduleCard_cardInv (c : Card) (g t : ℤ) :
    cardInv (SRSManager.scheduleCard c g t) := by
  intro d hd
  rw [scheduleCard_last_reviewed] at hd
  injection hd with hd
  rw [← hd]
  exact scheduleCard_due c g t

theorem get_cardInv (s : SRS) (fen : String) (t : ℤ) (hs : ∀ p ∈ s, cardInv p.2) :
    ∀ p ∈ (SRSManager.get s fen t).2, cardInv p.2 := by
  cases h : dGet s fen with
  | some c => simpa [SRSManager.get, h] using hs
  | none =>
    simp only [SRSManager.get, h]
    exact dSet_forall hs (newCard_cardInv fen t)

theorem schedule_cardInv (s : SRS) (fen : String) (g t : ℤ)
    (hs : ∀ p ∈ s, cardInv p.2) :
    ∀ p ∈ (SRSManager.schedule s fen g t).2, cardInv p.2 := by
  unfold SRSManager.schedule
  exact dSet_forall (get_cardInv s fen t hs) (scheduleCard_cardInv _ _ _)

theorem from_dict_to_dict (today : ℤ) (f : String) (c : Card) :
    Card.from_dict today f c.to_dict = { c with fen := f } := by
  cases h : c.last_reviewed <;> simp [Card.from_dict, Card.to_dict, h]

/-- The concrete malformed-but-well-typed persisted entry refuting the
load part of claim C6: `interval = 5`, `due = day 10`,
`last_reviewed = day 0`, so `due ≠ last_reviewed + interval`. -/
def c6BadDoc : CardDoc :=
  { ease := some (5 / 2), interval := some 5, repetitions := some 0,
    due := some (some 10), last_grade := none, last_reviewed := some (some 0) }

/-- Counterexample to claim C6: loading a persisted document can produce
a card with `last_reviewed` set whose `due` differs from
`last_reviewed + interval`, so loading does not preserve the invariant. -/
theorem C6_counterexample :
    dGet (SRSManager.load 0 [("P", c6BadDoc)]) "P" = some (Card.from_dict 0 "P" c6BadDoc)
    ∧ (Card.from_dict 0 "P" c6BadDoc).last_reviewed = some 0
    ∧ ¬((Card.from_dict 0 "P" c6BadDoc).due =
          0 + (Card.from_dict 0 "P" c6BadDoc).interval) :=
  ⟨rfl, rfl, by decide⟩

theorem remove_cards_cardInv (s : SRS) (keep : List String)
    (hs : ∀ p ∈ s, cardInv p.2) :
    ∀ p ∈ SRSManager.remove_cards s keep, cardInv p.2 :=
  fun p hp => hs p (List.mem_of_mem_filter hp)

theorem load_save_cardInv (s : SRS) (today : ℤ) (hs : ∀ p ∈ s, cardInv p.2) :
    ∀ p ∈ SRSManager.load today (SRSManager.save s), cardInv p.2 := by
  intro p hp
  simp only [SRSManager.load, SRSManager.save, List.map_map, List.mem_map] at hp
  obtain ⟨q, hq, rfl⟩ := hp
  simp only [Function.comp]
  rw [from_dict_to_dict]
  intro d hd
  exact hs q hq d hd

/-- Amended claim C6: the invariant `due == last_reviewed + interval`
holds for freshly created cards and is preserved by `get`, `schedule` and
`remove_cards`; loading preserves it for documents produced by `save`
(an arbitrary persisted document, by contrast, may load to a violating
card — see the counterexample). -/
theorem C6_amended_invariant_preservation (s : SRS) (fen : String) (g today : ℤ)
    (keep : List String) (hs : ∀ p ∈ s, cardInv p.2) :
    cardInv (newCard fen today)
    ∧ (∀ p ∈ (SRSManager.get s fen today).2, cardInv p.2)
    ∧ (∀ p ∈ (SRSManager.schedule s fen g today).2, cardInv p.2)
    ∧ (∀ p ∈ SRSManager.remove_cards s keep, cardInv p.2)
    ∧ (∀ p ∈ SRSManager.load today (SRSManager.save s), cardInv p.2) :=
  ⟨newCard_cardInv fen today,
   get_cardInv s fen today hs,
   schedule_cardInv s fen g today hs,
   remove_cards_cardInv s keep hs,
   load_save_cardInv s today hs⟩

/-- Witness for the amended C6 at a concrete one-card state. -/
theorem C6_witness :
    (∀ p ∈ [("P", newCard "P" 0)], cardInv p.2)
    ∧ (∀ p ∈ (SRSManager.schedule [("P", newCard "P" 0)] "P" 5 0).2, cardInv p.2) :=
  have hs : ∀ p ∈ [("P", newCard "P" 0)], cardInv p.2 := by
    intro p hp
    rw [List.mem_singleton] at hp
    rw [hp]
    exact newCard_cardInv "P" 0
  ⟨hs, (C6_amended_invariant_preservation [("P", newCard "P" 0)] "P" 5 0 [] hs).2.2.1⟩

/-! ### Round-trip of persisted documents -/

theorem dKeys_cons_pair {α : Type} (p : String × α) (l : List (String × α)) :
    dKeys (p :: l) = p.1 :: dKeys l := rfl

theorem cardObsEq_fen_update (c : Card) (f : String) :
    cardObsEq c { c with fen := f } :=
  ⟨rfl, rfl, rfl, rfl, rfl, rfl⟩

/-- Claim C9: saving an in-memory repertoire tree or card map to its
document and loading it back yields an observably equivalent structure:
the repertoire tree round-trips exactly, the card map keeps the same keys
in order, and each card keeps its ease, interval, repetitions, due,
last_grade and last_reviewed. -/
theorem C9_save_load_roundtrip (today : ℤ) (t : RepertoireTree) (m : SRS) :
    RepertoireManager.loadTree (RepertoireManager.saveTree t) = t
    ∧ dKeys (SRSManager.load today (SRSManager.save m)) = dKeys m
    ∧ List.Forall₂ (fun p q : String × Card => p.1 = q.1 ∧ cardObsEq p.2 q.2)
        m (SRSManager.load today (SRSManager.save m)) := by
  refine ⟨?_, ?_, ?_⟩
  · simp [RepertoireManager.loadTree, RepertoireManager.saveTree]
  · induction m with
    | nil => rfl
    | cons p rest ih =>
      simp only [SRSManager.load, SRSManager.save, List.map_cons] at ih ⊢
      rw [dKeys_cons_pair, dKeys_cons_pair, ih]
  · induction m with
    | nil => exact List.Forall₂.nil
    | cons p rest ih =>
      simp only [SRSManager.load, SRSManager.save, List.map_cons] at ih ⊢
      refine List.Forall₂.cons ⟨rfl, ?_⟩ ih
      rw [from_dict_to_dict]
      exact cardObsEq_fen_update p.2 p.1

/-! ### Answer adjudication -/

/-- Claim C7: when the repertoire stores no moves for the position and
side, `grade_answer` returns the distinguished "no moves stored" failure
result (empty expected-moves, no provided move) and leaves the scheduler
state entirely untouched. -/
theorem C7_no_moves_scheduler_untouched (rules : ChessRules) (rep : RepertoireManager)
    (s : SRS) (fen move_text side : String) (today sg fg : ℤ)
    (h : Trainer.available_moves rep fen side = []) :
    Trainer.grade_answer rules rep s fen move_text side today sg fg =
      ({ fen := fen, success := false, expected_moves := [], provided_move := none,
         next_fen := none, message := "No moves stored for this position." }, s) := by
  unfold Trainer.grade_answer
  simp [h]

/-- A small concrete rules provider for witnesses: it parses only the
algebraic text "Nf3" and always renders a move as "Nf3". -/
def demoRules : ChessRules :=
  { parseSan := fun _ text => if text = "Nf3" then some "g1f3" else none,
    fromUci := fun _ => none,
    legal := fun _ _ => true,
    san := fun _ _ => "Nf3" }

/-- Witness for C7: empty repertoire, one unrelated card in the map. -/
theorem C7_witness :
    Trainer.available_moves { white_tree := [], black_tree := [] } "P" "white" = []
    ∧ Trainer.grade_answer demoRules { white_tree := [], black_tree := [] }
        [("Q", newCard "Q" 0)] "P" "Nf3" "white" 0 5 1 =
      ({ fen := "P", success := false, expected_moves := [], provided_move := none,
         next_fen := none, message := "No moves stored for this position." },
       [("Q", newCard "Q" 0)]) :=
  ⟨rfl,
   C7_no_moves_scheduler_untouched demoRules { white_tree := [], black_tree := [] }
     [("Q", newCard "Q" 0)] "P" "Nf3" "white" 0 5 1 rfl⟩

theorem normalize_move_ne_empty (rules : ChessRules) (fen txt n : String)
    (hsan : ∀ b m, rules.san b m ≠ "")
    (h : Trainer.normalize_move rules fen txt = some n) : n ≠ "" := by
  unfold Trainer.normalize_move at h
  by_cases ht : pyStrip txt = ""
  · simp [ht] at h
  · rw [if_neg ht] at h
    cases hp : rules.parseSan fen (pyStrip txt) with
    | some mv =>
      rw [hp] at h
      injection h with h
      rw [← h]
      exact hsan fen mv
    | none =>
      rw [hp] at h
      cases hu : rules.fromUci (pyStrip txt).toLower with
      | none =>
        rw [hu] at h
        dsimp only at h
        cases h
      | some mv =>
        rw [hu] at h
        dsimp only at h
        by_cases hl : rules.legal fen mv = true
        · rw [if_pos hl] at h
          injection h with h
          rw [← h]
          exact hsan fen mv
        · rw [if_neg hl] at h
          cases h

/-- Claim C3: for a position with stored moves, `grade_answer` normalizes
the submitted text; when the normalized move is a key of the expected
moves it schedules the card at `success_grade` and returns a success
result carrying the resulting position, otherwise it schedules at
`failure_grade` and returns a failure result carrying the expected moves,
the normalized move (or none), and no resulting position. The rules
provider is assumed never to render a move as the empty string (true of
real SAN). -/
theorem C3_grade_answer_adjudication (rules : ChessRules) (rep : RepertoireManager)
    (s : SRS) (fen move_text side : String) (today sg fg : ℤ)
    (hne : Trainer.available_moves rep fen side ≠ [])
    (hsan : ∀ b m, rules.san b m ≠ "") :
    (∀ n nf, Trainer.normalize_move rules fen move_text = some n →
      dGet (Trainer.available_moves rep fen side) n = some nf →
      Trainer.grade_answer rules rep s fen move_text side today sg fg =
        ({ fen := fen, success := true,
           expected_moves := Trainer.available_moves rep fen side,
           provided_move := some n, next_fen := some nf, message := "Correct!" },
         (SRSManager.schedule s fen sg today).2))
    ∧ ((Trainer.normalize_move rules fen move_text = none ∨
        (∃ n, Trainer.normalize_move rules fen move_text = some n ∧
          dGet (Trainer.available_moves rep fen side) n = none)) →
      Trainer.grade_answer rules rep s fen move_text side today sg fg =
        ({ fen := fen, success := false,
           expected_moves := Trainer.available_moves rep fen side,
           provided_move := Trainer.normalize_move rules fen move_text, next_fen := none,
           message := "Incorrect. Review the expected move." },
         (SRSManager.schedule s fen fg today).2)) := by
  constructor
  · intro n nf hn hnf
    unfold Trainer.grade_answer
    rw [if_neg hne, hn]
    dsimp only
    rw [if_neg (normalize_move_ne_empty rules fen move_text n hsan hn), hnf]
  · rintro (hn | ⟨n, hn, hnf⟩)
    · unfold Trainer.grade_answer
      rw [if_neg hne, hn]
    · unfold Trainer.grade_answer
      rw [if_neg hne, hn]
      dsimp only
      rw [if_neg (normalize_move_ne_empty rules fen move_text n hsan hn), hnf]

/-- Witness for C3: repertoire `{P: {"Nf3": Q}}`, submitted text "Nf3". -/
theorem C3_witness :
    Trainer.available_moves { white_tree := [("P", [("Nf3", "Q")])], black_tree := [] } "P" "white" ≠ []
    ∧ Trainer.grade_answer demoRules { white_tree := [("P", [("Nf3", "Q")])], black_tree := [] }
        [] "P" "Nf3" "white" 0 5 1 =
      ({ fen := "P", success := true,
         expected_moves := Trainer.available_moves
           { white_tree := [("P", [("Nf3", "Q")])], black_tree := [] } "P" "white",
         provided_move := some "Nf3", next_fen := some "Q", message := "Correct!" },
       (SRSManager.schedule [] "P" 5 0).2) :=
  have hsan : ∀ b m, demoRules.san b m ≠ "" := by
    intro b m
    simp [demoRules]
  have hne : Trainer.available_moves
      { white_tree := [("P", [("Nf3", "Q")])], black_tree := [] } "P" "white" ≠ [] := by
    simp [Trainer.available_moves, RepertoireManager.get_available_moves,
      RepertoireManager.treeOf, dGet]
  ⟨hne,
   (C3_grade_answer_adjudication demoRules
      { white_tree := [("P", [("Nf3", "Q")])], black_tree := [] } [] "P" "Nf3" "white" 0 5 1
      hne hsan).1 "Nf3" "Q" (by decide) (by decide)⟩

/-! ### Line import and mid-sequence failures -/

/-- A concrete rules provider refuting claim C8: the first move of the
line is legal (SAN "A"), every move from the successor board fails. -/
def c8Rules : LineRules :=
  { san := fun board _ => if board = "s0" then some "A" else none,
    push := fun _ _ => "s1" }

/-- Counterexample to claim C8: importing the two-move line `a, b` from
board `s0` fails on the second move, yet the tree is not left unchanged —
the first ply was already committed before the failure. -/
theorem C8_counterexample :
    (RepertoireManager.addLine c8Rules ["a", "b"] "s0" []).2 = false
    ∧ (RepertoireManager.addLine c8Rules ["a", "b"] "s0" []).1 ≠ []
    ∧ (RepertoireManager.addLine c8Rules ["a", "b"] "s0" []).1
        = [("s0", [("A", "s1")])] := by
  refine ⟨?_, ?_, ?_⟩ <;> decide

theorem dGet_dSet_isSome {α : Type} (l : List (String × α)) (k f : String) (v : α)
    (h : (dGet l f).isSome = true) : (dGet (dSet l k v) f).isSome = true := by
  rw [dGet_dSet]
  by_cases hk : k = f
  · simp [hk]
  · simpa [hk] using h

theorem dGet2_treeInsert_isSome (t : RepertoireTree) (a b c f mv : String)
    (h : (dGet2 t f mv).isSome = true) :
    (dGet2 (RepertoireManager.treeInsert t a b c) f mv).isSome = true := by
  unfold dGet2 at h ⊢
  cases hin : dGet t a with
  | some inner =>
    simp only [RepertoireManager.treeInsert, hin, dGet_dSet]
    by_cases hf : a = f
    · subst hf
      rw [hin] at h
      simp only [Option.bind] at h ⊢
      exact dGet_dSet_isSome inner b mv c h
    · simpa [hf] using h
  | none =>
    simp only [RepertoireManager.treeInsert, hin, dGet_dSet]
    by_cases hf : a = f
    · subst hf
      rw [hin] at h
      simp at h
    · simpa [hf] using h

theorem addLine_keeps_entries (r : LineRules) (moves : List String) (board : String)
    (t : RepertoireTree) (f mv : String) (h : (dGet2 t f mv).isSome = true) :
    (dGet2 (RepertoireManager.addLine r moves board t).1 f mv).isSome = true := by
  induction moves generalizing board t with
  | nil => simpa [RepertoireManager.addLine] using h
  | cons m rest ih =>
    cases hs : r.san board m with
    | none => simpa [RepertoireManager.addLine, hs] using h
    | some sm =>
      simp only [RepertoireManager.addLine, hs]
      exact ih (r.push board m) _ (dGet2_treeInsert_isSome t board sm (r.push board m) f mv h)

theorem addLine_eq_goodInit (r : LineRules) (moves : List String) (board : String)
    (t : RepertoireTree) :
    (RepertoireManager.addLine r moves board t).1
      = (RepertoireManager.addLine r (RepertoireManager.goodInit r board moves) board t).1 := by
  induction moves generalizing board t with
  | nil => rfl
  | cons m rest ih =>
    cases hs : r.san board m with
    | none => simp [RepertoireManager.addLine, RepertoireManager.goodInit, hs]
    | some sm =>
      simp only [RepertoireManager.addLine, RepertoireManager.goodInit, hs]
      exact ih (r.push board m) _

theorem addLine_success_iff (r : LineRules) (moves : List String) (board : String)
    (t : RepertoireTree) :
    ((RepertoireManager.addLine r moves board t).2 = true
      ↔ RepertoireManager.goodInit r board moves = moves) := by
  induction moves generalizing board t with
  | nil => simp [RepertoireManager.addLine, RepertoireManager.goodInit]
  | cons m rest ih =>
    cases hs : r.san board m with
    | none => simp [RepertoireManager.addLine, RepertoireManager.goodInit, hs]
    | some sm =>
      simp only [RepertoireManager.addLine, RepertoireManager.goodInit, hs, List.cons.injEq,
        true_and]
      exact ih (r.push board m) _

/-- Amended claim C8: when the rules provider fails mid-sequence,
`add_line` aborts the rest of the line; the committed entries are exactly
those of the maximal successful leading run of moves (so plies before the
failing move are committed, the failing ply and everything after it are
not), the import reports success exactly when the whole line was walked,
and every `(position, move)` entry present beforehand — in particular
from lines imported earlier in the batch — is still present afterwards. -/
theorem C8_amended_abort_keeps_leading_run (r : LineRules) (moves : List String)
    (board : String) (t : RepertoireTree) :
    ((RepertoireManager.addLine r moves board t).1
        = (RepertoireManager.addLine r (RepertoireManager.goodInit r board moves) board t).1)
    ∧ ((RepertoireManager.addLine r moves board t).2 = true
        ↔ RepertoireManager.goodInit r board moves = moves)
    ∧ (∀ f mv, (dGet2 t f mv).isSome = true →
        (dGet2 (RepertoireManager.addLine r moves board t).1 f mv).isSome = true) :=
  ⟨addLine_eq_goodInit r moves board t,
   addLine_success_iff r moves board t,
   fun f mv h => addLine_keeps_entries r moves board t f mv h⟩

/-- Witness for the amended C8: an aborted two-move line on a tree that
already holds one entry from an earlier import; the prior entry survives. -/
theorem C8_witness :
    (dGet2 [("f", [("m", "g")])] "f" "m").isSome = true
    ∧ (dGet2 (RepertoireManager.addLine c8Rules ["a", "b"] "s0"
        [("f", [("m", "g")])]).1 "f" "m").isSome = true :=
  ⟨by decide,
   (C8_amended_abort_keeps_leading_run c8Rules ["a", "b"] "s0"
      [("f", [("m", "g")])]).2.2 "f" "m" (by decide)⟩
